import Mathlib

/-!
Verification of the differentiable batch executor in
`pennylane/interfaces/batch/tensorflow.py`.

The executor accepts a batch of parameterized tapes, runs them through a
supplied execution function, and returns results wired into a reverse-mode
autodiff graph; a gradient closure computes vector-Jacobian products, possibly
recursing into the executor for higher-order derivatives.

The embedding below follows the Python source line by line.  State mutated in
place in Python (tape attributes, the `nonlocal jacs` cell) is threaded
explicitly; the scoped `with qml.tape.Unwrap(*tapes)` context manager becomes
the `unwrapScope` combinator, which restores the wrapped state on every exit
path; exceptions become `Except`.  Calls made by the gradient closure to the
execution function, to the recursive executor, to the device gradient method
and to `batch_vjp` are recorded in explicit call lists so that properties of
the form "exactly one recursive call" are statable.
-/

namespace PennylaneTF

/-- Numeric values carried by parameters and results (modelled as integers;
the executor never inspects numeric content, it only routes it). -/
abbrev Val := Int

/-- A keyword-argument mapping (`gradient_kwargs`): option names to values. -/
abbrev Kwargs := List (String × Val)

/-- A per-tape Jacobian: rows indexed by result entries, columns by the
tape's trainable parameters. -/
abbrev Jacobian := List (List Val)

/-- Errors raised by the executor (Python exceptions). -/
abbrev Err := String

/-- A tape parameter: a numeric value together with the trainability
annotation the autodiff framework attaches to it (whether the value is a
tracked/watched tensor). -/
structure Param where
  val : Val
  isTrainable : Bool
deriving Repr, DecidableEq

/-- A quantum tape, as the executor sees it: an ordered parameter list, the
stored trainable-parameter index set (`tape.trainable_params`), a flag for
whether the parameters are currently in their symbolic/differentiable form
(`wrapped = false` inside a `qml.tape.Unwrap` scope), and a flag recording
whether the internal cache was refreshed (`tape._update()`). -/
structure Tape where
  params : List Param
  trainableIdx : List Nat
  wrapped : Bool
  updated : Bool
deriving Repr, DecidableEq

/-- Entering an `Unwrap` scope: bind the tape's parameters to concrete
numeric values. -/
def Tape.unwrapT (t : Tape) : Tape :=
  { t with wrapped := false }

/-- Leaving an `Unwrap` scope: restore the symbolic/differentiable form. -/
def Tape.rewrap (t : Tape) : Tape :=
  { t with wrapped := true }

/-- The cache refresh `tape._update()` performed before rebuilding gradient
tapes. -/
def Tape.updateT (t : Tape) : Tape :=
  { t with updated := true }

/-- Modelled from the spec: `qml.math.get_trainable_indices` (not part of the
excerpted sources) derives, from the tape's own parameter list, the ordered
set of parameter positions participating in differentiation; trainability is
carried here as a per-parameter annotation. -/
def getTrainableIndices (ps : List Param) : List Nat :=
  (List.range ps.length).filter fun i => ((ps.get? i).map Param.isTrainable).getD false

/-- `tape.get_parameters(trainable_only)`: the full ordered parameter list, or
the sub-list selected by the stored trainable indices, in index order. -/
def Tape.getParameters (t : Tape) (trainableOnly : Bool) : List Param :=
  if trainableOnly then t.trainableIdx.filterMap (fun i => t.params.get? i) else t.params

/-- A device/backend handle; Python compares devices by object identity
(`gradient_fn.fn.__self__ is device`), modelled by an identity tag. -/
structure Device where
  id : Nat
deriving Repr, DecidableEq

/-- A host numeric array (`tf.Tensor`) holding one tape's results. -/
structure Tensor where
  data : List Val
deriving Repr, DecidableEq

/-- `tf.convert_to_tensor` applied to one raw per-tape result. -/
def convertToTensor (r : List Val) : Tensor :=
  Tensor.mk r

/-- The execution function `execute_fn(tapes, **kwargs) -> (results,
jacobians)`; it may raise. An empty keyword mapping models a call made with
no keyword options. -/
abbrev ExecuteFn := List Tape → Kwargs → Except Err (List (List Val) × List Jacobian)

/-- The `gradient_fn` callable. `moduleName` is what
`inspect.getmodule(gradient_fn).__name__` reports; `fnBoundTo` is `some d`
when `gradient_fn.fn` exists and is a method bound to device `d`, and `none`
otherwise. `deviceJac` is its behaviour when invoked as a device method,
`gradient_fn(tapes, **kwargs) -> jacobians`. `vjpTapesOf`/`procOf` give its
behaviour as a gradient transform, through `batch_vjp` below. -/
structure GradientFn where
  moduleName : String
  fnBoundTo : Option Device
  deviceJac : List Tape → Kwargs → List Jacobian
  vjpTapesOf : List Tape → List (List Val) → String → Kwargs → List Tape
  procOf : List Tape → List (List Val) → String → Kwargs → List (List Val) → List Val

/-- Python's substring test `pat in s`, on character lists. -/
def strContains (s pat : List Char) : Bool :=
  (List.range (s.length + 1)).any fun i => pat.isPrefixOf (s.drop i)

/-- The branch test at line 135: `"pennylane.gradients" in module_name`,
a substring check on the originating module's name. -/
def isGradientTransform (gf : GradientFn) : Bool :=
  strContains gf.moduleName.toList "pennylane.gradients".toList

/-- Modelled from the spec: `qml.gradients.batch_vjp(tapes, dy, gradient_fn,
reduction, gradient_kwargs)` (not part of the excerpted sources) returns the
batch of VJP tapes and a post-processing function mapping executed results to
the flat VJP vector. -/
def batch_vjp (gf : GradientFn) (tapes : List Tape) (dy : List (List Val))
    (reduction : String) (kwargs : Kwargs) :
    List Tape × (List (List Val) → List Val) :=
  (gf.vjpTapesOf tapes dy reduction kwargs, gf.procOf tapes dy reduction kwargs)

/-- Modelled from the spec: `qml.gradients.compute_vjp(dy, jac)` (not part of
the excerpted sources) is the contraction of the upstream gradient vector
with the Jacobian matrix: entry `j` is the sum over rows `i` of
`dy i * jac i j`; its length is the Jacobian's column count, the tape's
trainable-parameter count. -/
def compute_vjp (dy : List Val) (jac : Jacobian) : List Val :=
  (List.range ((jac.headD []).length)).map fun j =>
    ((dy.zip jac).map fun p => p.1 * (p.2.getD j 0)).sum

/-- The `with qml.tape.Unwrap(*tapes):` context manager: the body runs on the
unwrapped tapes, and whatever tape state the body leaves behind is rewrapped
on every exit path, normal or exceptional. -/
def unwrapScope {α : Type} (tapes : List Tape) (body : List Tape → α × List Tape) :
    α × List Tape :=
  let r := body (tapes.map Tape.unwrapT)
  (r.1, r.2.map Tape.rewrap)

/-- Outcome of the forward pass `_execute`. `result` carries the converted
per-tape results and the Jacobian set (or the exception raised by
`execute_fn`); `params` is the flattened parameter vector that entered the
differentiation graph; `tapes` is the tape state when control leaves;
`execFnCalls` records every direct `execute_fn` invocation, with the keyword
options each received. -/
structure ForwardOut where
  result : Except Err (List Tensor × List Jacobian)
  params : List Param
  tapes : List Tape
  execFnCalls : List (List Tape × Kwargs)

/-- Lines 108-112: run `execute_fn` on the unwrapped tapes with
`gradient_kwargs` expanded, restore the tapes, and convert every per-tape
result to a host tensor. -/
def _execute (parameters : List Param) (tapes : List Tape) (executeFn : ExecuteFn)
    (gradientKwargs : Kwargs) : ForwardOut :=
  let step := unwrapScope tapes fun unw => (executeFn unw gradientKwargs, unw)
  let calls := [(tapes.map Tape.unwrapT, gradientKwargs)]
  match step.1 with
  | Except.error e =>
      ForwardOut.mk (Except.error e) parameters step.2 calls
  | Except.ok rj =>
      ForwardOut.mk (Except.ok (rj.1.map convertToTensor, rj.2)) parameters step.2 calls

/-- Lines 53-56: recompute and store the tape's trainable-parameter indices
(`tape.trainable_params = qml.math.get_trainable_indices(params)`). -/
def setTrainableParams (t : Tape) : Tape :=
  { t with trainableIdx := getTrainableIndices t.params }

/-- Lines 53-71: the forward pass `execute`. For every tape, recompute and
store the trainable-parameter indices, flatten the trainable parameters of
all tapes (tape order, then intra-tape order) into the parameter vector, and
hand off to `_execute`. -/
def execute (tapes : List Tape) (_device : Device) (executeFn : ExecuteFn)
    (_gradientFn : GradientFn) (gradientKwargs : Kwargs) (_n _maxDiff : Nat) :
    ForwardOut :=
  let tapes0 := tapes.map setTrainableParams
  let parameters := tapes0.foldr (fun t acc => t.getParameters true ++ acc) []
  _execute parameters tapes0 executeFn gradientKwargs

/-- Arguments of one recursive call to `execute` issued by the gradient
closure. -/
structure RecCall where
  tapes : List Tape
  device : Device
  executeFn : ExecuteFn
  gradientFn : GradientFn
  gradientKwargs : Kwargs
  n : Nat
  maxDiff : Nat

/-- Outcome of one invocation of the gradient closure `grad_fn`. `result` is
the flat VJP vector or the exception raised; `auxVariables` is the optional
auxiliary-variables payload passed through; `jacs` is the value of the
closure's `nonlocal jacs` cell when control leaves; `tapes` is the tape state
when control leaves; the call lists record every direct `execute_fn`
invocation (with its keyword options), every recursive `execute` invocation,
every device `gradient_fn` invocation, and every `batch_vjp` construction
(with the reduction mode and keyword options it received). -/
structure GradOut where
  result : Except Err (List Val)
  auxVariables : Option (List Val)
  jacs : List Jacobian
  tapes : List Tape
  execFnCalls : List (List Tape × Kwargs)
  recCalls : List RecCall
  deviceGradCalls : List (List Tape × Kwargs)
  batchVjpCalls : List (String × Kwargs)

/-- Lines 114-197: the gradient closure `grad_fn(*dy, **tfkwargs)` captured
by `_execute`. `jacs` is the current content of the closure's `nonlocal
jacs` cell (the forward-pass Jacobians, or whatever a previous invocation
wrote back); `auxVariables` models `tfkwargs.get("variables", None)`. -/
def grad_fn (tapes : List Tape) (device : Device) (executeFn : ExecuteFn)
    (gradientFn : GradientFn) (gradientKwargs : Kwargs) (n maxDiff : Nat)
    (jacs : List Jacobian) (dy : List (List Val)) (auxVariables : Option (List Val)) :
    GradOut :=
  if jacs = [] then
    -- Jacobians must be computed on the backward pass.
    if isGradientTransform gradientFn then
      if n = maxDiff then
        -- Lines 138-153: generate and execute the gradient tapes once,
        -- non-recursively. Inside the unwrap scope every tape's cache is
        -- refreshed, then the VJP tapes and processing function are built.
        let step := unwrapScope tapes fun unw =>
          let unw2 := unw.map Tape.updateT
          (batch_vjp gradientFn unw2 dy "extend" gradientKwargs, unw2)
        let vt := step.1.1
        let pf := step.1.2
        match executeFn vt [] with
        | Except.error e =>
            GradOut.mk (Except.error e) auxVariables jacs step.2
              [(vt, [])] [] [] [("extend", gradientKwargs)]
        | Except.ok rj =>
            GradOut.mk (Except.ok (pf rj.1)) auxVariables jacs step.2
              [(vt, [])] [] [] [("extend", gradientKwargs)]
      else
        -- Lines 155-173: build the VJP tapes and recurse into `execute`
        -- with an incremented nesting counter, then post-process.
        let bv := batch_vjp gradientFn tapes dy "extend" gradientKwargs
        let vt := bv.1
        let pf := bv.2
        let fwd := execute vt device executeFn gradientFn gradientKwargs (n + 1) maxDiff
        let rec1 := [RecCall.mk vt device executeFn gradientFn gradientKwargs (n + 1) maxDiff]
        match fwd.result with
        | Except.error e =>
            GradOut.mk (Except.error e) auxVariables jacs tapes
              [] rec1 [] [("extend", gradientKwargs)]
        | Except.ok rj =>
            GradOut.mk (Except.ok (pf (rj.1.map Tensor.data))) auxVariables jacs tapes
              [] rec1 [] [("extend", gradientKwargs)]
    else if gradientFn.fnBoundTo = some device then
      -- Lines 175-191: the gradient function is a device method; invoke it
      -- on the unwrapped tapes and write the Jacobians back into the
      -- `nonlocal jacs` cell, then contract.
      let step := unwrapScope tapes fun unw => (gradientFn.deviceJac unw gradientKwargs, unw)
      let newJacs := step.1
      let vjps := (dy.zip newJacs).foldr (fun p acc => compute_vjp p.1 p.2 ++ acc) []
      GradOut.mk (Except.ok vjps) auxVariables newJacs step.2
        [] [] [(tapes.map Tape.unwrapT, gradientKwargs)] []
    else
      -- Lines 193-194.
      GradOut.mk (Except.error "Unknown gradient function.") auxVariables jacs tapes
        [] [] [] []
  else
    -- Lines 120-124: Jacobians were computed on the forward pass; contract
    -- each upstream gradient against its tape's Jacobian and extend into the
    -- flat VJP vector.
    let vjps := (dy.zip jacs).foldr (fun p acc => compute_vjp p.1 p.2 ++ acc) []
    GradOut.mk (Except.ok vjps) auxVariables jacs tapes [] [] [] []

/-- The number of trainable parameters a tape carries, as recomputed by the
forward pass's preprocessing. -/
def trainableCount (t : Tape) : Nat :=
  (getTrainableIndices t.params).length

/-! Concrete instances used to evaluate the theorems below on closed inputs. -/

/-- A trainable parameter. -/
def pTrain : Param :=
  { val := 3, isTrainable := true }

/-- A non-trainable parameter. -/
def pFixed : Param :=
  { val := 5, isTrainable := false }

/-- A tape with one trainable and one fixed parameter. -/
def tapeA : Tape :=
  { params := [pTrain, pFixed], trainableIdx := [], wrapped := true, updated := false }

/-- A tape with no trainable parameter. -/
def tapeB : Tape :=
  { params := [pFixed], trainableIdx := [], wrapped := true, updated := false }

/-- A concrete device. -/
def dev0 : Device :=
  { id := 0 }

/-- A gradient function originating from the `pennylane.gradients` package. -/
def gfTransform : GradientFn :=
  { moduleName := "pennylane.gradients.parameter_shift"
    fnBoundTo := none
    deviceJac := fun _ _ => []
    vjpTapesOf := fun ts _ _ _ => ts
    procOf := fun _ _ _ _ rs => rs.flatten }

/-- A gradient function that is a method bound to `dev0`. -/
def gfDevice : GradientFn :=
  { moduleName := "pennylane_plugin_device"
    fnBoundTo := some dev0
    deviceJac := fun ts _ => ts.map fun _ => [[2]]
    vjpTapesOf := fun ts _ _ _ => ts
    procOf := fun _ _ _ _ _ => [] }

/-- A gradient function that is neither a transform nor a device method. -/
def gfUnknown : GradientFn :=
  { moduleName := "numpy"
    fnBoundTo := none
    deviceJac := fun _ _ => []
    vjpTapesOf := fun ts _ _ _ => ts
    procOf := fun _ _ _ _ _ => [] }

/-- A backend that precomputes Jacobians on the forward pass. -/
def execFnFwd : ExecuteFn :=
  fun ts _ => Except.ok (ts.map fun _ => [7], ts.map fun _ => [[2]])

/-- A backend that defers Jacobians to the backward pass. -/
def execFnBwd : ExecuteFn :=
  fun ts _ => Except.ok (ts.map fun _ => [7], [])

/-- A backend for a batch with zero trainable parameters: one result, one
Jacobian with one row and zero columns. -/
def execFnZero : ExecuteFn :=
  fun _ _ => Except.ok ([[42]], [[[]]])

/-- A backend that raises. -/
def execFnBoom : ExecuteFn :=
  fun _ _ => Except.error "backend failure"

/-- The tape batch handed to `batch_vjp` by the depth-exhausted branch: every
tape unwrapped and its cache refreshed. -/
def updatedUnwrapped (tapes : List Tape) : List Tape :=
  (tapes.map Tape.unwrapT).map Tape.updateT

/-! Helper lemmas. -/

/-- Folding list append over a zip equals flattening the zipWith. -/
theorem foldr_append_zip {α β γ : Type} (f : α → β → List γ) (a : List α) (b : List β) :
    (a.zip b).foldr (fun p acc => f p.1 p.2 ++ acc) [] = (List.zipWith f a b).flatten := by
  induction a generalizing b with
  | nil => simp
  | cons x xs ih =>
    cases b with
    | nil => simp
    | cons y ys => simp [ih]

/-- Folding list append over a map equals flattening the map. -/
theorem foldr_append_map {α β : Type} (f : α → List β) (l : List α) :
    l.foldr (fun t acc => f t ++ acc) [] = (l.map f).flatten := by
  induction l with
  | nil => rfl
  | cons x xs ih => simp [ih]

/-- Every index reported by `getTrainableIndices` is in bounds. -/
theorem getTrainableIndices_lt (ps : List Param) :
    ∀ i ∈ getTrainableIndices ps, i < ps.length := by
  intro i hi
  unfold getTrainableIndices at hi
  exact List.mem_range.mp (List.mem_filter.mp hi).1

/-- Looking up a list of in-bounds indices loses nothing. -/
theorem length_filterMap_get {α : Type} (ps : List α) (l : List Nat)
    (h : ∀ i ∈ l, i < ps.length) :
    (l.filterMap fun i => ps.get? i).length = l.length := by
  induction l with
  | nil => rfl
  | cons i is ih =>
    have hi : i < ps.length := h i (by simp)
    have hg : ps.get? i = some (ps.get ⟨i, hi⟩) := List.get?_eq_get hi
    simp only [List.filterMap_cons, hg, List.length_cons]
    rw [ih fun j hj => h j (by simp [hj])]

/-- After preprocessing, a tape contributes exactly its trainable-parameter
count to the flat parameter vector. -/
theorem getParameters_setTrainable_length (t : Tape) :
    ((setTrainableParams t).getParameters true).length = trainableCount t := by
  simp only [setTrainableParams, Tape.getParameters, trainableCount, if_pos]
  exact length_filterMap_get t.params _ (getTrainableIndices_lt t.params)

/-- Unfolding of `grad_fn` on the direct-contraction branch. -/
theorem grad_fn_direct (tapes : List Tape) (dev : Device) (eFn : ExecuteFn)
    (gFn : GradientFn) (kwargs : Kwargs) (n m : Nat) (jacs : List Jacobian)
    (dy : List (List Val)) (aux : Option (List Val)) (hjacs : jacs ≠ []) :
    grad_fn tapes dev eFn gFn kwargs n m jacs dy aux
      = GradOut.mk (Except.ok ((List.zipWith compute_vjp dy jacs).flatten)) aux
          jacs tapes [] [] [] [] := by
  unfold grad_fn
  rw [if_neg hjacs, foldr_append_zip]

/-- Unfolding of `grad_fn` on the device-method branch. -/
theorem grad_fn_device (tapes : List Tape) (dev : Device) (eFn : ExecuteFn)
    (gFn : GradientFn) (kwargs : Kwargs) (n m : Nat) (jacs : List Jacobian)
    (dy : List (List Val)) (aux : Option (List Val)) (hjacs : jacs = [])
    (htr : isGradientTransform gFn = false) (hdev : gFn.fnBoundTo = some dev) :
    grad_fn tapes dev eFn gFn kwargs n m jacs dy aux
      = GradOut.mk
          (Except.ok ((List.zipWith compute_vjp dy
              (gFn.deviceJac (tapes.map Tape.unwrapT) kwargs)).flatten)) aux
          (gFn.deviceJac (tapes.map Tape.unwrapT) kwargs)
          ((tapes.map Tape.unwrapT).map Tape.rewrap)
          [] [] [(tapes.map Tape.unwrapT, kwargs)] [] := by
  unfold grad_fn
  rw [if_pos hjacs, htr, if_pos hdev]
  simp only [Bool.false_eq_true, if_false, unwrapScope, foldr_append_zip]

/-- Unfolding of `grad_fn` on the unknown-gradient-function branch. -/
theorem grad_fn_unknown (tapes : List Tape) (dev : Device) (eFn : ExecuteFn)
    (gFn : GradientFn) (kwargs : Kwargs) (n m : Nat) (jacs : List Jacobian)
    (dy : List (List Val)) (aux : Option (List Val)) (hjacs : jacs = [])
    (htr : isGradientTransform gFn = false) (hdev : gFn.fnBoundTo ≠ some dev) :
    grad_fn tapes dev eFn gFn kwargs n m jacs dy aux
      = GradOut.mk (Except.error "Unknown gradient function.") aux jacs tapes
          [] [] [] [] := by
  unfold grad_fn
  rw [if_pos hjacs, htr, if_neg hdev]
  simp only [Bool.false_eq_true, if_false]

/-- Rewrapping leaves every tape in the wrapped state. -/
theorem all_wrapped_map_rewrap (l : List Tape) :
    (l.map Tape.rewrap).all (fun t => t.wrapped) = true := by
  simp [List.all_eq_true, Tape.rewrap]

/-- The forward pass makes exactly one `execute_fn` call, on the unwrapped
preprocessed tapes, with `gradient_kwargs` expanded. -/
theorem execute_execFnCalls (tapes : List Tape) (dev : Device) (eFn : ExecuteFn)
    (gFn : GradientFn) (kwargs : Kwargs) (n m : Nat) :
    (execute tapes dev eFn gFn kwargs n m).execFnCalls
      = [((tapes.map setTrainableParams).map Tape.unwrapT, kwargs)] := by
  simp only [execute, _execute, unwrapScope]
  cases hx : eFn (List.map Tape.unwrapT (List.map setTrainableParams tapes)) kwargs <;>
    rfl

/-- The forward pass's parameter vector is the flattened per-tape trainable
parameter lists, in tape order. -/
theorem execute_params (tapes : List Tape) (dev : Device) (eFn : ExecuteFn)
    (gFn : GradientFn) (kwargs : Kwargs) (n m : Nat) :
    (execute tapes dev eFn gFn kwargs n m).params
      = (tapes.map fun t => (setTrainableParams t).getParameters true).flatten := by
  simp only [execute, _execute, unwrapScope]
  cases hx : eFn (List.map Tape.unwrapT (List.map setTrainableParams tapes)) kwargs <;>
    simp [foldr_append_map] <;> rfl

/-- On a successful backend call the forward pass returns the converted
results together with the backend's Jacobians. -/
theorem execute_result_ok (tapes : List Tape) (dev : Device) (eFn : ExecuteFn)
    (gFn : GradientFn) (kwargs : Kwargs) (n m : Nat) (r : List (List Val))
    (j : List Jacobian)
    (hexec : eFn ((tapes.map setTrainableParams).map Tape.unwrapT) kwargs
        = Except.ok (r, j)) :
    (execute tapes dev eFn gFn kwargs n m).result
      = Except.ok (r.map convertToTensor, j) := by
  simp only [execute, _execute, unwrapScope]
  rw [hexec]

/-- The forward pass leaves every tape rewrapped, on both exit paths. -/
theorem execute_tapes_wrapped (tapes : List Tape) (dev : Device) (eFn : ExecuteFn)
    (gFn : GradientFn) (kwargs : Kwargs) (n m : Nat) :
    ((execute tapes dev eFn gFn kwargs n m).tapes).all (fun t => t.wrapped) = true := by
  simp only [execute, _execute, unwrapScope]
  cases hx : eFn (List.map Tape.unwrapT (List.map setTrainableParams tapes)) kwargs <;>
    exact all_wrapped_map_rewrap _

/-- Unfolding of `grad_fn` on the depth-exhausted transform branch. -/
theorem grad_fn_exhausted_spec (tapes : List Tape) (dev : Device) (eFn : ExecuteFn)
    (gFn : GradientFn) (kwargs : Kwargs) (n m : Nat) (jacs : List Jacobian)
    (dy : List (List Val)) (aux : Option (List Val)) (hjacs : jacs = [])
    (htr : isGradientTransform gFn = true) (hnm : n = m) :
    (grad_fn tapes dev eFn gFn kwargs n m jacs dy aux).execFnCalls
        = [(gFn.vjpTapesOf (updatedUnwrapped tapes) dy "extend" kwargs, [])] ∧
    (grad_fn tapes dev eFn gFn kwargs n m jacs dy aux).recCalls = [] ∧
    (grad_fn tapes dev eFn gFn kwargs n m jacs dy aux).deviceGradCalls = [] ∧
    (grad_fn tapes dev eFn gFn kwargs n m jacs dy aux).batchVjpCalls
        = [("extend", kwargs)] ∧
    (grad_fn tapes dev eFn gFn kwargs n m jacs dy aux).tapes
        = (updatedUnwrapped tapes).map Tape.rewrap ∧
    (∀ pr, eFn (gFn.vjpTapesOf (updatedUnwrapped tapes) dy "extend" kwargs) []
          = Except.ok pr →
        (grad_fn tapes dev eFn gFn kwargs n m jacs dy aux).result
          = Except.ok (gFn.procOf (updatedUnwrapped tapes) dy "extend" kwargs pr.1)) ∧
    (∀ e, eFn (gFn.vjpTapesOf (updatedUnwrapped tapes) dy "extend" kwargs) []
          = Except.error e →
        (grad_fn tapes dev eFn gFn kwargs n m jacs dy aux).result
          = Except.error e) := by
  unfold grad_fn
  rw [if_pos hjacs, htr, if_pos (Eq.refl true), if_pos hnm]
  simp only [unwrapScope, batch_vjp, updatedUnwrapped, List.map_map]
  cases hx : eFn (gFn.vjpTapesOf (List.map (Tape.updateT ∘ Tape.unwrapT) tapes)
      dy "extend" kwargs) [] <;>
    simp [hx, List.map_map]

/-- Unfolding of `grad_fn` on the recursive transform branch. -/
theorem grad_fn_recursive_spec (tapes : List Tape) (dev : Device) (eFn : ExecuteFn)
    (gFn : GradientFn) (kwargs : Kwargs) (n m : Nat) (jacs : List Jacobian)
    (dy : List (List Val)) (aux : Option (List Val)) (hjacs : jacs = [])
    (htr : isGradientTransform gFn = true) (hnm : n ≠ m) :
    (grad_fn tapes dev eFn gFn kwargs n m jacs dy aux).recCalls
        = [RecCall.mk (gFn.vjpTapesOf tapes dy "extend" kwargs) dev eFn gFn kwargs
            (n + 1) m] ∧
    (grad_fn tapes dev eFn gFn kwargs n m jacs dy aux).execFnCalls = [] ∧
    (grad_fn tapes dev eFn gFn kwargs n m jacs dy aux).deviceGradCalls = [] ∧
    (grad_fn tapes dev eFn gFn kwargs n m jacs dy aux).batchVjpCalls
        = [("extend", kwargs)] ∧
    (grad_fn tapes dev eFn gFn kwargs n m jacs dy aux).tapes = tapes ∧
    (grad_fn tapes dev eFn gFn kwargs n m jacs dy aux).jacs = jacs ∧
    (∀ rj, (execute (gFn.vjpTapesOf tapes dy "extend" kwargs) dev eFn gFn kwargs
          (n + 1) m).result = Except.ok rj →
        (grad_fn tapes dev eFn gFn kwargs n m jacs dy aux).result
          = Except.ok (gFn.procOf tapes dy "extend" kwargs (rj.1.map Tensor.data))) ∧
    (∀ e, (execute (gFn.vjpTapesOf tapes dy "extend" kwargs) dev eFn gFn kwargs
          (n + 1) m).result = Except.error e →
        (grad_fn tapes dev eFn gFn kwargs n m jacs dy aux).result
          = Except.error e) := by
  unfold grad_fn
  rw [if_pos hjacs, htr, if_pos (Eq.refl true), if_neg hnm]
  simp only [batch_vjp]
  cases hx : (execute (gFn.vjpTapesOf tapes dy "extend" kwargs) dev eFn gFn kwargs
      (n + 1) m).result <;>
    simp [hx]

/-!  Claim theorems. -/

/-- C1: for every tape batch whose forward pass returned a non-empty Jacobian
set, the gradient closure computes the VJP by contracting each upstream
gradient `dy i` against `jacs i` per tape and extending these into the flat
VJP vector in parameter-vector order, with no recursive executor call, no
gradient-transform invocation, and no device gradient invocation. -/
theorem direct_vjp_contraction (tapes : List Tape) (dev : Device) (eFn : ExecuteFn)
    (gFn : GradientFn) (kwargs : Kwargs) (n m : Nat) (jacs : List Jacobian)
    (dy : List (List Val)) (aux : Option (List Val)) (hjacs : jacs ≠ []) :
    (grad_fn tapes dev eFn gFn kwargs n m jacs dy aux).result
        = Except.ok ((List.zipWith compute_vjp dy jacs).flatten) ∧
    (grad_fn tapes dev eFn gFn kwargs n m jacs dy aux).recCalls = [] ∧
    (grad_fn tapes dev eFn gFn kwargs n m jacs dy aux).batchVjpCalls = [] ∧
    (grad_fn tapes dev eFn gFn kwargs n m jacs dy aux).deviceGradCalls = [] ∧
    (grad_fn tapes dev eFn gFn kwargs n m jacs dy aux).execFnCalls = [] := by
  rw [grad_fn_direct tapes dev eFn gFn kwargs n m jacs dy aux hjacs]
  exact ⟨rfl, rfl, rfl, rfl, rfl⟩

/-- C1 witness: a single tape whose backend precomputed the 1×1 Jacobian
`[[2]]`; with upstream gradient `[3]` the reported VJP is `[6] = [3 * 2]` and
no further call of any kind is made. -/
theorem direct_vjp_contraction_witness :
    ([[[2]]] : List Jacobian) ≠ [] ∧
    (grad_fn [tapeA] dev0 execFnFwd gfTransform [] 1 2 [[[2]]] [[3]] none).result
        = Except.ok [6] := by
  refine ⟨by decide, ?_⟩
  have h := (direct_vjp_contraction [tapeA] dev0 execFnFwd gfTransform [] 1 2
    [[[2]]] [[3]] none (by decide)).1
  rw [h]
  rfl

/-- C2: with empty forward Jacobians, a differentiable-transform gradient
function and nesting strictly below `max_diff`, the closure issues exactly
one recursive `execute` call, on the constructed VJP tapes, with nesting
`n + 1` and the same `max_diff`, device, execution function, gradient
function and keyword options, and applies the transform's processing function
to the recursive result; no direct `execute_fn` call and no device gradient
call are made. -/
theorem transform_recursive_branch (tapes : List Tape) (dev : Device) (eFn : ExecuteFn)
    (gFn : GradientFn) (kwargs : Kwargs) (n m : Nat) (jacs : List Jacobian)
    (dy : List (List Val)) (aux : Option (List Val)) (hjacs : jacs = [])
    (htr : isGradientTransform gFn = true) (hn : n < m) :
    (grad_fn tapes dev eFn gFn kwargs n m jacs dy aux).recCalls
        = [RecCall.mk (gFn.vjpTapesOf tapes dy "extend" kwargs) dev eFn gFn kwargs
            (n + 1) m] ∧
    (grad_fn tapes dev eFn gFn kwargs n m jacs dy aux).execFnCalls = [] ∧
    (grad_fn tapes dev eFn gFn kwargs n m jacs dy aux).deviceGradCalls = [] ∧
    (∀ rj, (execute (gFn.vjpTapesOf tapes dy "extend" kwargs) dev eFn gFn kwargs
          (n + 1) m).result = Except.ok rj →
        (grad_fn tapes dev eFn gFn kwargs n m jacs dy aux).result
          = Except.ok (gFn.procOf tapes dy "extend" kwargs (rj.1.map Tensor.data))) := by
  have h := grad_fn_recursive_spec tapes dev eFn gFn kwargs n m jacs dy aux hjacs htr
      (Nat.ne_of_lt hn)
  exact ⟨h.1, h.2.1, h.2.2.1, h.2.2.2.2.2.2.1⟩

/-- C2 witness: one tape, nesting 1 of max 2; the closure records exactly the
recursive call with nesting 2, and the recursive forward pass (which returns
result `[7]` per tape) is post-processed into the VJP `[7]`. -/
theorem transform_recursive_branch_witness :
    ([] : List Jacobian) = [] ∧ isGradientTransform gfTransform = true ∧ 1 < 2 ∧
    (grad_fn [tapeA] dev0 execFnBwd gfTransform [] 1 2 [] [[3]] none).recCalls
        = [RecCall.mk (gfTransform.vjpTapesOf [tapeA] [[3]] "extend" []) dev0 execFnBwd
            gfTransform [] 2 2] ∧
    (grad_fn [tapeA] dev0 execFnBwd gfTransform [] 1 2 [] [[3]] none).result
        = Except.ok [7] := by
  have h := transform_recursive_branch [tapeA] dev0 execFnBwd gfTransform [] 1 2 []
      [[3]] none rfl (by decide) (by decide)
  refine ⟨rfl, by decide, by decide, h.1, ?_⟩
  have h4 := h.2.2.2 ([Tensor.mk [7]], []) rfl
  rw [h4]
  rfl

/-- C3: with empty forward Jacobians, a differentiable-transform gradient
function and nesting equal to `max_diff`, the closure unwraps the tapes,
refreshes each tape's cached state, builds the VJP tapes and processing
function via `batch_vjp` with reduction mode "extend", executes that batch
exactly once through `execute_fn` with no recursive executor call, and
applies the processing function to obtain the final VJP vector. -/
theorem transform_exhausted_branch (tapes : List Tape) (dev : Device) (eFn : ExecuteFn)
    (gFn : GradientFn) (kwargs : Kwargs) (n m : Nat) (jacs : List Jacobian)
    (dy : List (List Val)) (aux : Option (List Val)) (pr : List (List Val) × List Jacobian)
    (hjacs : jacs = []) (htr : isGradientTransform gFn = true) (hnm : n = m)
    (hexec : eFn (gFn.vjpTapesOf (updatedUnwrapped tapes) dy "extend" kwargs) []
        = Except.ok pr) :
    (grad_fn tapes dev eFn gFn kwargs n m jacs dy aux).execFnCalls
        = [(gFn.vjpTapesOf (updatedUnwrapped tapes) dy "extend" kwargs, [])] ∧
    (grad_fn tapes dev eFn gFn kwargs n m jacs dy aux).recCalls = [] ∧
    (grad_fn tapes dev eFn gFn kwargs n m jacs dy aux).deviceGradCalls = [] ∧
    (grad_fn tapes dev eFn gFn kwargs n m jacs dy aux).batchVjpCalls
        = [("extend", kwargs)] ∧
    (grad_fn tapes dev eFn gFn kwargs n m jacs dy aux).tapes
        = (updatedUnwrapped tapes).map Tape.rewrap ∧
    (grad_fn tapes dev eFn gFn kwargs n m jacs dy aux).result
        = Except.ok (gFn.procOf (updatedUnwrapped tapes) dy "extend" kwargs pr.1) := by
  have h := grad_fn_exhausted_spec tapes dev eFn gFn kwargs n m jacs dy aux hjacs htr hnm
  exact ⟨h.1, h.2.1, h.2.2.1, h.2.2.2.1, h.2.2.2.2.1, h.2.2.2.2.2.1 pr hexec⟩

/-- C3 witness: one tape at nesting 1 of max 1; the gradient-tape batch is
executed once through the backend with no recursion, every tape comes back
refreshed and rewrapped, and post-processing yields the VJP `[7]`. -/
theorem transform_exhausted_branch_witness :
    ([] : List Jacobian) = [] ∧ isGradientTransform gfTransform = true ∧ 1 = 1 ∧
    (grad_fn [tapeA] dev0 execFnBwd gfTransform [] 1 1 [] [[3]] none).recCalls = [] ∧
    (grad_fn [tapeA] dev0 execFnBwd gfTransform [] 1 1 [] [[3]] none).tapes
        = (updatedUnwrapped [tapeA]).map Tape.rewrap ∧
    (grad_fn [tapeA] dev0 execFnBwd gfTransform [] 1 1 [] [[3]] none).result
        = Except.ok [7] := by
  have h := transform_exhausted_branch [tapeA] dev0 execFnBwd gfTransform [] 1 1 []
      [[3]] none ([[7]], []) rfl (by decide) rfl rfl
  refine ⟨rfl, by decide, rfl, h.2.1, h.2.2.2.2.1, ?_⟩
  rw [h.2.2.2.2.2]
  rfl

/-- C4: with empty forward Jacobians and a gradient function that is neither
a `pennylane.gradients` transform nor a method bound to the supplied device,
the closure raises "Unknown gradient function." and leaves the batch's tapes
(and the Jacobian cell) untouched, making no call of any kind. -/
theorem unknown_gradient_fn_error (tapes : List Tape) (dev : Device) (eFn : ExecuteFn)
    (gFn : GradientFn) (kwargs : Kwargs) (n m : Nat) (jacs : List Jacobian)
    (dy : List (List Val)) (aux : Option (List Val)) (hjacs : jacs = [])
    (htr : isGradientTransform gFn = false) (hdev : gFn.fnBoundTo ≠ some dev) :
    (grad_fn tapes dev eFn gFn kwargs n m jacs dy aux).result
        = Except.error "Unknown gradient function." ∧
    (grad_fn tapes dev eFn gFn kwargs n m jacs dy aux).tapes = tapes ∧
    (grad_fn tapes dev eFn gFn kwargs n m jacs dy aux).jacs = jacs ∧
    (grad_fn tapes dev eFn gFn kwargs n m jacs dy aux).execFnCalls = [] ∧
    (grad_fn tapes dev eFn gFn kwargs n m jacs dy aux).recCalls = [] ∧
    (grad_fn tapes dev eFn gFn kwargs n m jacs dy aux).deviceGradCalls = [] ∧
    (grad_fn tapes dev eFn gFn kwargs n m jacs dy aux).batchVjpCalls = [] := by
  rw [grad_fn_unknown tapes dev eFn gFn kwargs n m jacs dy aux hjacs htr hdev]
  exact ⟨rfl, rfl, rfl, rfl, rfl, rfl, rfl⟩

/-- C4 witness: a gradient function from an unrelated module with no bound
device method raises the configuration error and mutates nothing. -/
theorem unknown_gradient_fn_error_witness :
    ([] : List Jacobian) = [] ∧ isGradientTransform gfUnknown = false ∧
    gfUnknown.fnBoundTo ≠ some dev0 ∧
    (grad_fn [tapeA] dev0 execFnBwd gfUnknown [] 1 2 [] [[3]] none).result
        = Except.error "Unknown gradient function." ∧
    (grad_fn [tapeA] dev0 execFnBwd gfUnknown [] 1 2 [] [[3]] none).tapes = [tapeA] := by
  have h := unknown_gradient_fn_error [tapeA] dev0 execFnBwd gfUnknown [] 1 2 []
      [[3]] none rfl (by decide) (by decide)
  exact ⟨rfl, by decide, by decide, h.1, h.2.1⟩

/-- C7: with empty forward Jacobians, a non-transform gradient function bound
to the supplied device, the closure invokes the gradient function directly on
the unwrapped tapes (once, with the keyword options) to obtain Jacobians and
contracts `dy` against them, with no recursive executor call, no direct
`execute_fn` call and no `batch_vjp` construction. -/
theorem device_gradient_branch (tapes : List Tape) (dev : Device) (eFn : ExecuteFn)
    (gFn : GradientFn) (kwargs : Kwargs) (n m : Nat) (jacs : List Jacobian)
    (dy : List (List Val)) (aux : Option (List Val)) (hjacs : jacs = [])
    (htr : isGradientTransform gFn = false) (hdev : gFn.fnBoundTo = some dev) :
    (grad_fn tapes dev eFn gFn kwargs n m jacs dy aux).deviceGradCalls
        = [(tapes.map Tape.unwrapT, kwargs)] ∧
    (grad_fn tapes dev eFn gFn kwargs n m jacs dy aux).result
        = Except.ok ((List.zipWith compute_vjp dy
            (gFn.deviceJac (tapes.map Tape.unwrapT) kwargs)).flatten) ∧
    (grad_fn tapes dev eFn gFn kwargs n m jacs dy aux).recCalls = [] ∧
    (grad_fn tapes dev eFn gFn kwargs n m jacs dy aux).execFnCalls = [] ∧
    (grad_fn tapes dev eFn gFn kwargs n m jacs dy aux).batchVjpCalls = [] := by
  rw [grad_fn_device tapes dev eFn gFn kwargs n m jacs dy aux hjacs htr hdev]
  exact ⟨rfl, rfl, rfl, rfl, rfl⟩

/-- C7 witness: a device-bound gradient method returning the 1×1 Jacobian
`[[2]]` per tape; with upstream gradient `[3]` the VJP is `[6]`, computed
with exactly one device gradient call and nothing else. -/
theorem device_gradient_branch_witness :
    ([] : List Jacobian) = [] ∧ isGradientTransform gfDevice = false ∧
    gfDevice.fnBoundTo = some dev0 ∧
    (grad_fn [tapeA] dev0 execFnBwd gfDevice [] 1 2 [] [[3]] none).deviceGradCalls
        = [([tapeA.unwrapT], [])] ∧
    (grad_fn [tapeA] dev0 execFnBwd gfDevice [] 1 2 [] [[3]] none).result
        = Except.ok [6] := by
  have h := device_gradient_branch [tapeA] dev0 execFnBwd gfDevice [] 1 2 []
      [[3]] none rfl (by decide) rfl
  refine ⟨rfl, by decide, rfl, h.1, ?_⟩
  rw [h.2.1]
  rfl

/-- C9: the device-method branch writes the Jacobians it computes back into
the closure's `nonlocal jacs` cell, so when that branch produced a non-empty
Jacobian list, a subsequent invocation of the same closure finds `jacs`
non-empty and takes the direct-contraction branch, invoking neither the
gradient function nor anything else. -/
theorem device_jacobians_cached (tapes : List Tape) (dev : Device) (eFn : ExecuteFn)
    (gFn : GradientFn) (kwargs : Kwargs) (n m : Nat) (dy dy2 : List (List Val))
    (aux aux2 : Option (List Val))
    (htr : isGradientTransform gFn = false) (hdev : gFn.fnBoundTo = some dev)
    (hne : gFn.deviceJac (tapes.map Tape.unwrapT) kwargs ≠ []) :
    (grad_fn tapes dev eFn gFn kwargs n m [] dy aux).jacs ≠ [] ∧
    (grad_fn (grad_fn tapes dev eFn gFn kwargs n m [] dy aux).tapes dev eFn gFn kwargs
        n m (grad_fn tapes dev eFn gFn kwargs n m [] dy aux).jacs dy2 aux2).deviceGradCalls
      = [] ∧
    (grad_fn (grad_fn tapes dev eFn gFn kwargs n m [] dy aux).tapes dev eFn gFn kwargs
        n m (grad_fn tapes dev eFn gFn kwargs n m [] dy aux).jacs dy2 aux2).recCalls
      = [] ∧
    (grad_fn (grad_fn tapes dev eFn gFn kwargs n m [] dy aux).tapes dev eFn gFn kwargs
        n m (grad_fn tapes dev eFn gFn kwargs n m [] dy aux).jacs dy2 aux2).execFnCalls
      = [] ∧
    (grad_fn (grad_fn tapes dev eFn gFn kwargs n m [] dy aux).tapes dev eFn gFn kwargs
        n m (grad_fn tapes dev eFn gFn kwargs n m [] dy aux).jacs dy2 aux2).result
      = Except.ok ((List.zipWith compute_vjp dy2
          (grad_fn tapes dev eFn gFn kwargs n m [] dy aux).jacs).flatten) ∧
    (grad_fn (grad_fn tapes dev eFn gFn kwargs n m [] dy aux).tapes dev eFn gFn kwargs
        n m (grad_fn tapes dev eFn gFn kwargs n m [] dy aux).jacs dy2 aux2).jacs
      = (grad_fn tapes dev eFn gFn kwargs n m [] dy aux).jacs := by
  have h1 := grad_fn_device tapes dev eFn gFn kwargs n m [] dy aux rfl htr hdev
  simp only [h1]
  have h2 := grad_fn_direct ((tapes.map Tape.unwrapT).map Tape.rewrap) dev eFn gFn kwargs
      n m (gFn.deviceJac (tapes.map Tape.unwrapT) kwargs) dy2 aux2 hne
  simp only [h2]
  refine ⟨hne, ?_, ?_, ?_, ?_, ?_⟩ <;> trivial

/-- C9 witness: after the device branch computes `[[2]]` for the single tape,
a second invocation of the closure contracts directly, calling nothing. -/
theorem device_jacobians_cached_witness :
    isGradientTransform gfDevice = false ∧ gfDevice.fnBoundTo = some dev0 ∧
    gfDevice.deviceJac ([tapeA].map Tape.unwrapT) [] ≠ [] ∧
    (grad_fn [tapeA] dev0 execFnBwd gfDevice [] 1 2 [] [[3]] none).jacs ≠ [] ∧
    (grad_fn (grad_fn [tapeA] dev0 execFnBwd gfDevice [] 1 2 [] [[3]] none).tapes dev0
        execFnBwd gfDevice [] 1 2
        (grad_fn [tapeA] dev0 execFnBwd gfDevice [] 1 2 [] [[3]] none).jacs
        [[10]] none).deviceGradCalls = [] ∧
    (grad_fn (grad_fn [tapeA] dev0 execFnBwd gfDevice [] 1 2 [] [[3]] none).tapes dev0
        execFnBwd gfDevice [] 1 2
        (grad_fn [tapeA] dev0 execFnBwd gfDevice [] 1 2 [] [[3]] none).jacs
        [[10]] none).result = Except.ok [20] := by
  have h := device_jacobians_cached [tapeA] dev0 execFnBwd gfDevice [] 1 2 [[3]] [[10]]
      none none (by decide) rfl (by decide)
  refine ⟨by decide, rfl, by decide, h.1, h.2.1, ?_⟩
  rw [h.2.2.2.2.1]
  rfl

/-- C5: unwrap is scoped. On every exit path of the forward pass — including
the path where `execute_fn` raises — and of the gradient-closure branches
that unwrap tapes (the depth-exhausted transform branch and the device
branch), every tape is back in its symbolic/differentiable form when control
leaves. -/
theorem unwrap_restored (tapes : List Tape) (dev : Device) (eFn : ExecuteFn)
    (gFn : GradientFn) (kwargs : Kwargs) (n m : Nat) (jacs : List Jacobian)
    (dy : List (List Val)) (aux : Option (List Val)) :
    ((execute tapes dev eFn gFn kwargs n m).tapes).all (fun t => t.wrapped) = true ∧
    (jacs = [] → isGradientTransform gFn = true → n = m →
      ((grad_fn tapes dev eFn gFn kwargs n m jacs dy aux).tapes).all
          (fun t => t.wrapped) = true) ∧
    (jacs = [] → isGradientTransform gFn = false → gFn.fnBoundTo = some dev →
      ((grad_fn tapes dev eFn gFn kwargs n m jacs dy aux).tapes).all
          (fun t => t.wrapped) = true) := by
  refine ⟨execute_tapes_wrapped tapes dev eFn gFn kwargs n m, ?_, ?_⟩
  · intro hjacs htr hnm
    have h := (grad_fn_exhausted_spec tapes dev eFn gFn kwargs n m jacs dy aux hjacs
        htr hnm).2.2.2.2.1
    rw [h]
    exact all_wrapped_map_rewrap _
  · intro hjacs htr hdev
    rw [grad_fn_device tapes dev eFn gFn kwargs n m jacs dy aux hjacs htr hdev]
    exact all_wrapped_map_rewrap _

/-- C5 witness: with a backend that raises, both the forward pass and the
depth-exhausted gradient branch still leave the tape rewrapped. -/
theorem unwrap_restored_witness :
    ((execute [tapeA] dev0 execFnBoom gfTransform [] 1 1).tapes).all
        (fun t => t.wrapped) = true ∧
    ((grad_fn [tapeA] dev0 execFnBoom gfTransform [] 1 1 [] [[3]] none).tapes).all
        (fun t => t.wrapped) = true := by
  have h := unwrap_restored [tapeA] dev0 execFnBoom gfTransform [] 1 1 [] [[3]] none
  exact ⟨h.1, h.2.1 rfl (by decide) rfl⟩

/-- A map whose entries are all empty flattens to the empty list. -/
theorem flatten_nil_of_all {α β : Type} (l : List α) (f : α → List β)
    (h : ∀ x ∈ l, f x = []) : (l.map f).flatten = [] := by
  induction l with
  | nil => rfl
  | cons x xs ih =>
    simp only [List.map_cons, List.flatten_cons, h x (by simp)]
    exact ih fun y hy => h y (by simp [hy])

/-- Contracting against a Jacobian with no columns yields the empty VJP. -/
theorem compute_vjp_empty_cols (d : List Val) (j : Jacobian)
    (h : ∀ row ∈ j, row = []) : compute_vjp d j = [] := by
  unfold compute_vjp
  cases j with
  | nil => rfl
  | cons r rs =>
    rw [show (r :: rs).headD [] = r from rfl, h r (by simp)]
    rfl

/-- Contracting against Jacobians that all have no columns yields the empty
flat VJP vector. -/
theorem zipWith_vjp_nil (dy : List (List Val)) (jacs : List Jacobian)
    (h : ∀ j ∈ jacs, ∀ row ∈ j, row = []) :
    (List.zipWith compute_vjp dy jacs).flatten = [] := by
  induction dy generalizing jacs with
  | nil => simp
  | cons d ds ih =>
    cases jacs with
    | nil => simp
    | cons j js =>
      simp only [List.zipWith_cons_cons, List.flatten_cons,
        compute_vjp_empty_cols d j (h j (by simp)), List.nil_append]
      exact ih js fun j2 hj2 => h j2 (by simp [hj2])

/-- C6: a batch of tapes with zero trainable parameters flattens an empty
parameter vector into the differentiation graph on the forward pass, and
(under the shape invariant that each backend Jacobian has one column per
trainable parameter, hence none here) the gradient closure returns an empty
VJP vector — the round-trip of the empty parameter vector. -/
theorem zero_trainable_roundtrip (tapes : List Tape) (dev : Device) (eFn : ExecuteFn)
    (gFn : GradientFn) (kwargs : Kwargs) (n m : Nat) (res : List Tensor)
    (jacs : List Jacobian) (dy : List (List Val)) (aux : Option (List Val))
    (h1 : ∀ t ∈ tapes, getTrainableIndices t.params = [])
    (_hfwd : (execute tapes dev eFn gFn kwargs n m).result = Except.ok (res, jacs))
    (hne : jacs ≠ [])
    (hcols : ∀ j ∈ jacs, ∀ row ∈ j, row = []) :
    (execute tapes dev eFn gFn kwargs n m).params = [] ∧
    (grad_fn tapes dev eFn gFn kwargs n m jacs dy aux).result = Except.ok [] := by
  constructor
  · rw [execute_params]
    exact flatten_nil_of_all tapes _ fun t ht => by
      simp [setTrainableParams, Tape.getParameters, h1 t ht]
  · rw [(grad_fn_direct tapes dev eFn gFn kwargs n m jacs dy aux hne)]
    rw [show (GradOut.mk (Except.ok ((List.zipWith compute_vjp dy jacs).flatten)) aux
        jacs tapes [] [] [] []).result
      = Except.ok ((List.zipWith compute_vjp dy jacs).flatten) from rfl]
    rw [zipWith_vjp_nil dy jacs hcols]

/-- C6 witness: a single tape with no trainable parameter; its backend
returns one result and a 1×0 Jacobian; the forward parameter vector is empty
and the gradient closure returns the empty VJP vector. -/
theorem zero_trainable_roundtrip_witness :
    (∀ t ∈ [tapeB], getTrainableIndices t.params = []) ∧
    (execute [tapeB] dev0 execFnZero gfTransform [] 1 2).result
        = Except.ok ([Tensor.mk [42]], [[[]]]) ∧
    (execute [tapeB] dev0 execFnZero gfTransform [] 1 2).params = [] ∧
    (grad_fn [tapeB] dev0 execFnZero gfTransform [] 1 2 [[[]]] [[1]] none).result
        = Except.ok [] := by
  have h := zero_trainable_roundtrip [tapeB] dev0 execFnZero gfTransform [] 1 2
      [Tensor.mk [42]] [[[]]] [[1]] none (by decide) rfl (by decide) (by decide)
  exact ⟨by decide, rfl, h.1, h.2⟩

/-- C8: after a forward pass whose backend returns one raw result per tape,
the result set has exactly one entry per input tape, in tape order, each
converted to the host tensor representation; and the flattened parameter
vector entering the differentiation graph has length equal to the sum over
tapes of their trainable-parameter counts. -/
theorem forward_shapes (tapes : List Tape) (dev : Device) (eFn : ExecuteFn)
    (gFn : GradientFn) (kwargs : Kwargs) (n m : Nat) (r : List (List Val))
    (j : List Jacobian)
    (hexec : eFn ((tapes.map setTrainableParams).map Tape.unwrapT) kwargs
        = Except.ok (r, j))
    (hlen : r.length = tapes.length) :
    (execute tapes dev eFn gFn kwargs n m).result
        = Except.ok (r.map convertToTensor, j) ∧
    (r.map convertToTensor).length = tapes.length ∧
    (execute tapes dev eFn gFn kwargs n m).params.length
        = (tapes.map trainableCount).sum := by
  refine ⟨execute_result_ok tapes dev eFn gFn kwargs n m r j hexec, by simp [hlen], ?_⟩
  rw [execute_params, List.length_flatten, List.map_map]
  have he : (List.length ∘ fun t => (setTrainableParams t).getParameters true)
      = trainableCount := funext fun t => getParameters_setTrainable_length t
  rw [he]

/-- C8 witness: two tapes (one trainable parameter in the first, none in the
second); the result set has two tensor entries and the parameter vector has
length 1 + 0. -/
theorem forward_shapes_witness :
    execFnFwd (([tapeA, tapeB].map setTrainableParams).map Tape.unwrapT) []
        = Except.ok ([[7], [7]], [[[2]], [[2]]]) ∧
    ([[7], [7]] : List (List Val)).length = [tapeA, tapeB].length ∧
    (execute [tapeA, tapeB] dev0 execFnFwd gfTransform [] 1 2).params.length
        = ([tapeA, tapeB].map trainableCount).sum := by
  refine ⟨rfl, rfl, ?_⟩
  exact (forward_shapes [tapeA, tapeB] dev0 execFnFwd gfTransform [] 1 2 [[7], [7]]
      [[[2]], [[2]]] rfl rfl).2.2

/-- C10: the forward pass calls `execute_fn` with the `gradient_kwargs`
mapping expanded as keyword arguments, while the depth-exhausted gradient
branch executes the VJP-tape batch through `execute_fn` with no keyword
options at all; the gradient keyword options reach that branch's gradient
computation only through `batch_vjp`. -/
theorem kwargs_routing (tapes : List Tape) (dev : Device) (eFn : ExecuteFn)
    (gFn : GradientFn) (kwargs : Kwargs) (n m : Nat) (jacs : List Jacobian)
    (dy : List (List Val)) (aux : Option (List Val)) (hjacs : jacs = [])
    (htr : isGradientTransform gFn = true) (hnm : n = m) :
    (execute tapes dev eFn gFn kwargs n m).execFnCalls
        = [((tapes.map setTrainableParams).map Tape.unwrapT, kwargs)] ∧
    (grad_fn tapes dev eFn gFn kwargs n m jacs dy aux).execFnCalls
        = [(gFn.vjpTapesOf (updatedUnwrapped tapes) dy "extend" kwargs, [])] ∧
    (grad_fn tapes dev eFn gFn kwargs n m jacs dy aux).batchVjpCalls
        = [("extend", kwargs)] := by
  have h := grad_fn_exhausted_spec tapes dev eFn gFn kwargs n m jacs dy aux hjacs htr hnm
  exact ⟨execute_execFnCalls tapes dev eFn gFn kwargs n m, h.1, h.2.2.2.1⟩

/-- C10 witness: with the non-empty option mapping `[("shots", 3)]`, the
forward `execute_fn` call receives it, the depth-exhausted branch's
`execute_fn` call receives no options, and `batch_vjp` receives it. -/
theorem kwargs_routing_witness :
    ([] : List Jacobian) = [] ∧ isGradientTransform gfTransform = true ∧ 1 = 1 ∧
    (execute [tapeA] dev0 execFnBwd gfTransform [("shots", 3)] 1 1).execFnCalls
        = [(([tapeA].map setTrainableParams).map Tape.unwrapT, [("shots", 3)])] ∧
    (grad_fn [tapeA] dev0 execFnBwd gfTransform [("shots", 3)] 1 1 [] [[3]]
        none).execFnCalls
        = [(gfTransform.vjpTapesOf (updatedUnwrapped [tapeA]) [[3]] "extend"
            [("shots", 3)], [])] ∧
    (grad_fn [tapeA] dev0 execFnBwd gfTransform [("shots", 3)] 1 1 [] [[3]]
        none).batchVjpCalls
        = [("extend", [("shots", 3)])] := by
  have h := kwargs_routing [tapeA] dev0 execFnBwd gfTransform [("shots", 3)] 1 1 []
      [[3]] none rfl (by decide) rfl
  exact ⟨rfl, by decide, rfl, h.1, h.2.1, h.2.2⟩

end PennylaneTF
